import Mathlib

/-!
Verification development for the address codec of `src/util/address.rs`
(mwcproject/rust-bitcoin): payload model, coin-profile-parameterized
Base58Check and Bech32 address encoding/decoding, classification, and the
`from_str`/`Display` round-trip logic.

Strings are modelled as `List Char`. Machine bytes are `Nat` values that are
kept below 256 by explicit hypotheses where it matters. Fallible operations
return `Except`. The cryptographic hash primitives and the bech32 checksum
are external collaborators of the core (they live outside `src/`); they are
modelled from the spec as explicit function parameters bundled in `Collab`,
with the contracts the spec states for them.
-/

set_option autoImplicit false
set_option maxRecDepth 100000

deriving instance DecidableEq for Except

namespace AddressCodec

/-- Network enumeration, from `network::constants::Network`. -/
inductive Network where
  | bitcoin
  | testnet
  | signet
  | regtest
deriving DecidableEq, Repr

/-- The method used to produce an address (`Payload` in the source).
Hashes are byte lists; the witness version is the numeric value of the
source's `bech32::u5`. -/
inductive Payload where
  | pubkeyHash (hash : List Nat)
  | scriptHash (hash : List Nat)
  | witnessProgram (version : Nat) (program : List Nat)
deriving DecidableEq, Repr

/-- The different types of addresses (`AddressType` in the source). -/
inductive AddressType where
  | P2pkh
  | P2sh
  | P2wpkh
  | P2wsh
deriving DecidableEq, Repr

/-- Base58 errors surfaced by `util::base58` (modelled variants used by
`address.rs`: invalid length, invalid version prefix, bad checksum, bad
character, too-short input). -/
inductive Base58Err where
  | InvalidLength (n : Nat)
  | InvalidVersion (v : List Nat)
  | BadChecksum
  | InvalidCharacter (c : Char)
  | TooShort (n : Nat)
deriving DecidableEq, Repr

/-- Bech32 errors surfaced by the bech32 collaborator. -/
inductive Bech32Err where
  | MissingSeparator
  | InvalidChecksum
  | InvalidLength
  | InvalidChar (c : Char)
  | MixedCase
  | InvalidPadding
deriving DecidableEq, Repr

/-- Address error (`Error` in `address.rs`). -/
inductive Error where
  | Base58 (e : Base58Err)
  | Bech32 (e : Bech32Err)
  | EmptyBech32Payload
  | InvalidWitnessVersion (v : Nat)
  | InvalidWitnessProgramLength (l : Nat)
  | InvalidSegwitV0ProgramLength (l : Nat)
  | UncompressedPubkey
deriving DecidableEq, Repr

/-- A Bitcoin address (`Address` in the source): payload, network, and the
owned coin-profile fields. -/
structure Address where
  payload : Payload
  network : Network
  prefix_bech32_mainnet : List Char
  prefix_bech32_testnet : List Char
  version_pubkeyhash_mainnet : List Nat
  version_pubkeyhash_testnet : List Nat
  version_scripthash_mainnet : List Nat
  version_scripthash_testnet : List Nat
deriving DecidableEq, Repr

/-- A public key as the core consumes it: the compressed flag plus the
serialized byte form produced by the key-serialization collaborator. -/
structure PublicKey where
  compressed : Bool
  ser : List Nat
deriving DecidableEq, Repr

/-- Modelled from the spec: the external collaborators consumed through
narrow interfaces — `sha256d` (Base58Check checksum source), the bech32
checksum function, `hash160` (HASH160 digests for pubkey/script hashes) and
`sha256` (for `WScriptHash`). -/
structure Collab where
  sha256d : List Nat → List Nat
  bech32_checksum : List Char → List Nat → List Nat
  hash160 : List Nat → List Nat
  sha256 : List Nat → List Nat

/-- Contracts the spec states for the collaborators: digest sizes and
byte-ness of outputs; the bech32 checksum is six 5-bit groups. -/
def Collab.WF (C : Collab) : Prop :=
  (∀ d, 4 ≤ (C.sha256d d).length ∧ ∀ b ∈ C.sha256d d, b < 256) ∧
  (∀ hrp d, (C.bech32_checksum hrp d).length = 6 ∧ ∀ v ∈ C.bech32_checksum hrp d, v < 32) ∧
  (∀ d, (C.hash160 d).length = 20 ∧ ∀ b ∈ C.hash160 d, b < 256) ∧
  (∀ d, (C.sha256 d).length = 32 ∧ ∀ b ∈ C.sha256 d, b < 256)

/-- A concrete (degenerate) collaborator instance used to evaluate the
development on closed inputs. -/
def collab0 : Collab where
  sha256d := fun _ => List.replicate 32 0
  bech32_checksum := fun _ _ => List.replicate 6 0
  hash160 := fun _ => List.replicate 20 0
  sha256 := fun _ => List.replicate 32 0

/-! ### ASCII helpers (rust `eq_ignore_ascii_case`) -/

/-- ASCII lowercase of a character, as rust's `to_ascii_lowercase`. -/
def asciiLower (c : Char) : Char :=
  if 'A' ≤ c ∧ c ≤ 'Z' then Char.ofNat (c.toNat + 32) else c

/-- rust `str::eq_ignore_ascii_case`, on char lists. -/
def eq_ignore_ascii_case : List Char → List Char → Bool
  | [], [] => true
  | x :: xs, y :: ys => (asciiLower x == asciiLower y) && eq_ignore_ascii_case xs ys
  | _, _ => false

/-- `c.isLower`-style test restricted to ASCII letters. -/
def isLowerAscii (c : Char) : Bool := 'a' ≤ c && c ≤ 'z'

/-- ASCII uppercase-letter test. -/
def isUpperAscii (c : Char) : Bool := 'A' ≤ c && c ≤ 'Z'

/-! ### Bech32 collaborator, modelled from the spec (§4.4 and BIP-173

The bech32 primitive is an external collaborator ("accepts a human-readable
prefix and a sequence of 5-bit values and returns/parses a text string").
The 8↔5-bit regrouping is modelled directly from the spec's words
("bit-packed, no padding bits beyond what the final group requires"); the
checksum is the abstract `Collab.bech32_checksum`, and checksum validity is
modelled as the transmitted checksum equaling the recomputed one (for the
BCH code the valid checksum of a message is unique, so this is equivalent
to the polymod test). -/

/-- The bech32 data-character set, from BIP-173. -/
def BECH32_CHARSET : List Char :=
  ['q','p','z','r','y','9','x','8','g','f','2','t','v','d','w','0',
   's','3','j','n','5','4','k','h','c','e','6','m','u','a','7','l']

/-- Character of a 5-bit value. -/
def bech32CharOf (v : Nat) : Char := BECH32_CHARSET.getD v '?'

/-- 5-bit value of a data character, if any. -/
def bech32ValOf (c : Char) : Option Nat := BECH32_CHARSET.findIdx? (· = c)

/-- The 8 bits of a byte, most significant first. -/
def byte8Bits (n : Nat) : List Bool :=
  [n.testBit 7, n.testBit 6, n.testBit 5, n.testBit 4,
   n.testBit 3, n.testBit 2, n.testBit 1, n.testBit 0]

/-- The 5 bits of a 5-bit group, most significant first. -/
def u5Bits (n : Nat) : List Bool :=
  [n.testBit 4, n.testBit 3, n.testBit 2, n.testBit 1, n.testBit 0]

/-- Value of a bit string, most significant bit first. -/
def bitsToNatMSB (l : List Bool) : Nat :=
  l.foldl (fun a b => 2 * a + (bif b then 1 else 0)) 0

/-- Regroup a bit string into 5-bit groups (length assumed divisible by 5;
a trailing fragment shorter than 5 bits is dropped). -/
def chunk5 : List Bool → List Nat
  | a :: b :: c :: d :: e :: rest => bitsToNatMSB [a, b, c, d, e] :: chunk5 rest
  | _ => []

/-- Regroup a bit string into bytes (length assumed divisible by 8;
a trailing fragment shorter than 8 bits is dropped). -/
def chunk8 : List Bool → List Nat
  | a :: b :: c :: d :: e :: f :: g :: h :: rest =>
      bitsToNatMSB [a, b, c, d, e, f, g, h] :: chunk8 rest
  | _ => []

/-- 8-bit bytes to 5-bit groups with zero padding of the final group
(`ToBase32`, i.e. `convert_bits(8, 5, pad := true)`). -/
def toBase32 (bytes : List Nat) : List Nat :=
  let bits := bytes.flatMap byte8Bits
  chunk5 (bits ++ List.replicate ((5 - bits.length % 5) % 5) false)

/-- 5-bit groups to bytes with strict padding check
(`FromBase32` for `Vec<u8>`, i.e. `convert_bits(5, 8, pad := false)`):
the leftover bits must number fewer than five and all be zero. -/
def fromBase32 (groups : List Nat) : Except Bech32Err (List Nat) :=
  let bits := groups.flatMap u5Bits
  let rbits := bits.length % 8
  if 5 ≤ rbits ∨ (bits.drop (bits.length - rbits)).any id then
    .error .InvalidPadding
  else
    .ok (chunk8 (bits.take (bits.length - rbits)))

/-- Index of the last `'1'` in a char list, if any. -/
def lastIdxOfOne : List Char → Option Nat
  | [] => none
  | c :: rest =>
    match lastIdxOfOne rest with
    | some i => some (i + 1)
    | none => if c = '1' then some 0 else none

/-- `bech32::encode`-shaped serialization as performed by `Bech32Writer`:
the human-readable part, the separator `'1'`, then the data characters of
the payload followed by the six checksum characters. -/
def bech32_encode (cksum : List Char → List Nat → List Nat)
    (hrp : List Char) (data : List Nat) : List Char :=
  hrp ++ '1' :: (data ++ cksum hrp data).map bech32CharOf

/-- Parse data-part characters into 5-bit values. -/
def bech32ParseChars : List Char → Except Bech32Err (List Nat)
  | [] => .ok []
  | c :: rest =>
    match bech32ValOf c with
    | none => .error (.InvalidChar c)
    | some v =>
      match bech32ParseChars rest with
      | .error e => .error e
      | .ok vs => .ok (v :: vs)

/-- `bech32::decode`: reject mixed case, lowercase, split at the last
`'1'`, require a nonempty prefix and at least six data characters, parse
the data characters, and verify the six-group checksum. -/
def bech32_decode (cksum : List Char → List Nat → List Nat)
    (s : List Char) : Except Bech32Err (List Char × List Nat) :=
  if s.any isUpperAscii && s.any isLowerAscii then .error .MixedCase
  else
    let t := s.map asciiLower
    match lastIdxOfOne t with
    | none => .error .MissingSeparator
    | some i =>
      let hrp := t.take i
      let dataPart := t.drop (i + 1)
      if hrp = [] then .error .InvalidLength
      else if dataPart.length < 6 then .error .InvalidLength
      else
        match bech32ParseChars dataPart with
        | .error e => .error e
        | .ok vs =>
          let d := vs.take (vs.length - 6)
          let cs := vs.drop (vs.length - 6)
          if cs = cksum hrp d then .ok (hrp, d) else .error .InvalidChecksum

/-! ### Base58Check codec, modelled from the spec (§4.3)

`util::base58` is code of this repository that is not under `src/`; it is
modelled from the spec: the standard 58-character Bitcoin alphabet,
big-number digit conversion with leading-zero-byte ↔ leading-`'1'` run
preservation, and a 4-byte `sha256d` checksum suffix. -/

/-- The Base58 alphabet. -/
def B58_ALPHABET : List Char :=
  ['1','2','3','4','5','6','7','8','9',
   'A','B','C','D','E','F','G','H','J','K','L','M','N','P','Q','R','S','T','U','V','W','X','Y','Z',
   'a','b','c','d','e','f','g','h','i','j','k','m','n','o','p','q','r','s','t','u','v','w','x','y','z']

/-- Character of a base-58 digit. -/
def b58CharOf (d : Nat) : Char := B58_ALPHABET.getD d '?'

/-- Digit of a base-58 character, if any. -/
def b58ValOf (c : Char) : Option Nat := B58_ALPHABET.findIdx? (· = c)

/-- Big-endian byte-string value. -/
def bytesToNat (bytes : List Nat) : Nat :=
  bytes.foldl (fun acc b => acc * 256 + b) 0

/-- Base-`b` digits of `n`, least significant first, with explicit fuel
(enough fuel is `b ^ fuel > n`). -/
def natDigitsRev (b : Nat) : Nat → Nat → List Nat
  | 0, _ => []
  | fuel + 1, n => if n = 0 then [] else n % b :: natDigitsRev b fuel (n / b)

/-- Base58 raw encoding: one `'1'` per leading zero byte, then the base-58
digits of the value, most significant first. -/
def base58_raw_encode (bytes : List Nat) : List Char :=
  let zeros := (bytes.takeWhile (· == 0)).length
  let n := bytesToNat bytes
  List.replicate zeros '1' ++ ((natDigitsRev 58 (2 * bytes.length) n).reverse.map b58CharOf)

/-- Parse base58 characters into digits. -/
def b58ParseChars : List Char → Except Base58Err (List Nat)
  | [] => .ok []
  | c :: rest =>
    match b58ValOf c with
    | none => .error (.InvalidCharacter c)
    | some v =>
      match b58ParseChars rest with
      | .error e => .error e
      | .ok vs => .ok (v :: vs)

/-- Base58 raw decoding (`base58::from`): digit values accumulated as a big
number, one leading zero byte per leading `'1'` character. -/
def base58_raw_decode (s : List Char) : Except Base58Err (List Nat) :=
  match b58ParseChars s with
  | .error e => .error e
  | .ok vs =>
    let n := vs.foldl (fun acc v => acc * 58 + v) 0
    .ok (List.replicate ((s.takeWhile (· == '1')).length) 0 ++
          (natDigitsRev 256 s.length n).reverse)

/-- `base58::check_encode_slice`: append the first four bytes of
`sha256d(data)` and base58-encode. -/
def base58_check_encode (sha256d : List Nat → List Nat) (data : List Nat) : List Char :=
  base58_raw_encode (data ++ (sha256d data).take 4)

/-- `base58::from_check`: decode, then verify that the trailing four bytes
equal the first four bytes of `sha256d` of the rest. -/
def base58_from_check (sha256d : List Nat → List Nat) (s : List Char) :
    Except Base58Err (List Nat) :=
  match base58_raw_decode s with
  | .error e => .error e
  | .ok ret =>
    if ret.length < 4 then .error (.TooShort ret.length)
    else
      let payload := ret.take (ret.length - 4)
      let cs := ret.drop (ret.length - 4)
      if cs = (sha256d payload).take 4 then .ok payload else .error .BadChecksum

/-! ### Coin profiles (`Address::new_*`) -/

/-- `Address::new_btc`. -/
def new_btc : Address where
  network := .signet
  payload := .scriptHash (List.replicate 20 0)
  prefix_bech32_mainnet := ['b', 'c']
  prefix_bech32_testnet := ['t', 'b']
  version_pubkeyhash_mainnet := [0]
  version_scripthash_mainnet := [5]
  version_pubkeyhash_testnet := [111]
  version_scripthash_testnet := [196]

/-- `Address::new_ltc`. -/
def new_ltc : Address where
  network := .signet
  payload := .scriptHash (List.replicate 20 0)
  prefix_bech32_mainnet := ['l', 't', 'c']
  prefix_bech32_testnet := ['t', 'l', 't', 'c']
  version_pubkeyhash_mainnet := [48]
  version_scripthash_mainnet := [50]
  version_pubkeyhash_testnet := [111]
  version_scripthash_testnet := [58]

/-- `Address::new_dash`. -/
def new_dash : Address where
  network := .signet
  payload := .scriptHash (List.replicate 20 0)
  prefix_bech32_mainnet := ['x', 'x', 'x']
  prefix_bech32_testnet := ['x', 'x', 'x']
  version_pubkeyhash_mainnet := [76]
  version_scripthash_mainnet := [16]
  version_pubkeyhash_testnet := [140]
  version_scripthash_testnet := [19]

/-- `Address::new_zec`. -/
def new_zec : Address where
  network := .signet
  payload := .scriptHash (List.replicate 20 0)
  prefix_bech32_mainnet := ['x', 'x', 'x']
  prefix_bech32_testnet := ['x', 'x', 'x']
  version_pubkeyhash_mainnet := [28, 184]
  version_scripthash_mainnet := [28, 189]
  version_pubkeyhash_testnet := [29, 37]
  version_scripthash_testnet := [28, 186]

/-- `Address::new_doge`. -/
def new_doge : Address where
  network := .signet
  payload := .scriptHash (List.replicate 20 0)
  prefix_bech32_mainnet := ['x', 'x', 'x']
  prefix_bech32_testnet := ['x', 'x', 'x']
  version_pubkeyhash_mainnet := [30]
  version_scripthash_mainnet := [22]
  version_pubkeyhash_testnet := [113]
  version_scripthash_testnet := [196]

/-! ### Constructors (`Address::p2pkh` … `Address::p2shwsh`)

Each takes the coin-profile-bearing template `T` and returns a new address
with the same profile fields, the freshly derived payload and the supplied
network. Scripts are byte lists; the `Builder` scripts of `p2shwpkh` /
`p2shwsh` are `OP_0` (0x00) followed by a push of the 20- or 32-byte hash
(length byte then data). -/

/-- `Address::p2pkh`. -/
def p2pkh (C : Collab) (T : Address) (pk : PublicKey) (network : Network) : Address :=
  { T with payload := .pubkeyHash (C.hash160 pk.ser), network := network }

/-- `Address::p2sh`. -/
def p2sh (C : Collab) (T : Address) (script : List Nat) (network : Network) : Address :=
  { T with payload := .scriptHash (C.hash160 script), network := network }

/-- `Address::p2wpkh`: only errors on an uncompressed public key. -/
def p2wpkh (C : Collab) (T : Address) (pk : PublicKey) (network : Network) :
    Except Error Address :=
  if !pk.compressed then .error .UncompressedPubkey
  else .ok { T with payload := .witnessProgram 0 (C.hash160 pk.ser), network := network }

/-- `Address::p2shwpkh`: only errors on an uncompressed public key; hashes
the `OP_0 <20-byte wpkh>` redeem script. -/
def p2shwpkh (C : Collab) (T : Address) (pk : PublicKey) (network : Network) :
    Except Error Address :=
  if !pk.compressed then .error .UncompressedPubkey
  else .ok { T with
    payload := .scriptHash (C.hash160 (0 :: 20 :: C.hash160 pk.ser)),
    network := network }

/-- `Address::p2wsh`. -/
def p2wsh (C : Collab) (T : Address) (script : List Nat) (network : Network) : Address :=
  { T with payload := .witnessProgram 0 (C.sha256 script), network := network }

/-- `Address::p2shwsh`: hashes the `OP_0 <32-byte wsh>` redeem script. -/
def p2shwsh (C : Collab) (T : Address) (script : List Nat) (network : Network) : Address :=
  { T with payload := .scriptHash (C.hash160 (0 :: 32 :: C.sha256 script)), network := network }

/-! ### Classification -/

/-- `Address::address_type`: the source's nested match on `ver.to_u8()`
and `prog.len()` (literal arms 0 / 20 / 32 with catch-all `None`),
rendered as the equivalent conditionals. -/
def address_type (a : Address) : Option AddressType :=
  match a.payload with
  | .pubkeyHash _ => some .P2pkh
  | .scriptHash _ => some .P2sh
  | .witnessProgram ver prog =>
    if ver = 0 then
      if prog.length = 20 then some .P2wpkh
      else if prog.length = 32 then some .P2wsh
      else none
    else none

/-- `Address::is_standard`. -/
def is_standard (a : Address) : Bool := (address_type a).isSome

/-! ### Parsing (`Address::from_str`) and serialization (`Display`) -/

/-- `find_bech32_prefix` in the source: the part of the input before the
last occurrence of the separator `'1'`; the whole input when there is
none. -/
def find_bech32_hrp (s : List Char) : List Char :=
  match lastIdxOfOne s with
  | none => s
  | some i => s.take i

/-- The bech32 network-selection step of `from_str`: case-insensitive
comparison of the extracted prefix against the profile's testnet prefix,
then its mainnet prefix. -/
def bech32_network_of (T : Address) (s : List Char) : Option Network :=
  if eq_ignore_ascii_case T.prefix_bech32_testnet (find_bech32_hrp s) then some .testnet
  else if eq_ignore_ascii_case T.prefix_bech32_mainnet (find_bech32_hrp s) then some .bitcoin
  else none

/-- The bech32 decode path of `from_str` (lines 566–605 of the source):
bech32-decode, reject an empty payload, split off the witness version,
regroup 5-bit groups into program bytes, then the three validity gates in
source order. -/
def from_str_bech32path (C : Collab) (T : Address) (network : Network) (s : List Char) :
    Except Error Address :=
  match bech32_decode C.bech32_checksum s with
  | .error e => .error (.Bech32 e)
  | .ok (_, payload) =>
    match payload with
    | [] => .error .EmptyBech32Payload
    | version :: p5 =>
      match fromBase32 p5 with
      | .error e => .error (.Bech32 e)
      | .ok program =>
        if 16 < version then .error (.InvalidWitnessVersion version)
        else if program.length < 2 ∨ 40 < program.length then
          .error (.InvalidWitnessProgramLength program.length)
        else if version = 0 ∧ program.length ≠ 20 ∧ program.length ≠ 32 then
          .error (.InvalidSegwitV0ProgramLength program.length)
        else .ok { T with payload := .witnessProgram version program, network := network }

/-- The Base58 decode path of `from_str` (lines 607–653 of the source):
the 50-character guard, checksum decode, length check against the
profile's prefix length plus 20, then the four version comparisons in
source order. -/
def from_str_base58path (C : Collab) (T : Address) (s : List Char) :
    Except Error Address :=
  if 50 < s.length then .error (.Base58 (.InvalidLength (s.length * 11 / 15)))
  else
    match base58_from_check C.sha256d s with
    | .error e => .error (.Base58 e)
    | .ok data =>
      let prefix_len := T.version_pubkeyhash_mainnet.length
      if data.length ≠ 20 + prefix_len then .error (.Base58 (.InvalidLength data.length))
      else
        let version := data.take prefix_len
        let body := data.drop prefix_len
        if version = T.version_pubkeyhash_mainnet then
          .ok { T with network := .bitcoin, payload := .pubkeyHash body }
        else if version = T.version_scripthash_mainnet then
          .ok { T with network := .bitcoin, payload := .scriptHash body }
        else if version = T.version_pubkeyhash_testnet then
          .ok { T with network := .testnet, payload := .pubkeyHash body }
        else if version = T.version_scripthash_testnet then
          .ok { T with network := .testnet, payload := .scriptHash body }
        else .error (.Base58 (.InvalidVersion version))

/-- `Address::from_str`: bech32 prefix dispatch, falling back to Base58. -/
def from_str (C : Collab) (T : Address) (s : List Char) : Except Error Address :=
  match bech32_network_of T s with
  | some network => from_str_bech32path C T network s
  | none => from_str_base58path C T s

/-- `impl Display for Address` (`to_string`): Base58Check with the
network-selected version bytes for hash payloads; bech32 with the
network-selected human-readable part for witness programs, where Regtest
always uses the fixed literal `"bcrt"`. -/
def to_string (C : Collab) (a : Address) : List Char :=
  match a.payload with
  | .pubkeyHash h =>
    base58_check_encode C.sha256d
      ((match a.network with
        | .bitcoin => a.version_pubkeyhash_mainnet
        | .testnet | .signet | .regtest => a.version_pubkeyhash_testnet) ++ h)
  | .scriptHash h =>
    base58_check_encode C.sha256d
      ((match a.network with
        | .bitcoin => a.version_scripthash_mainnet
        | .testnet | .signet | .regtest => a.version_scripthash_testnet) ++ h)
  | .witnessProgram ver prog =>
    bech32_encode C.bech32_checksum
      (match a.network with
       | .bitcoin => a.prefix_bech32_mainnet
       | .testnet | .signet => a.prefix_bech32_testnet
       | .regtest => ['b', 'c', 'r', 't'])
      (ver :: toBase32 prog)

/-! ### Spec-side predicates used by the round-trip theorem -/

/-- Well-formedness of a coin profile, as the spec describes profiles
(§3): nonempty all-lowercase bech32 prefixes, and four version-byte fields
sharing one length (1 or 2), all bytes below 256, pairwise distinct.
Each of the five named profiles satisfies this. -/
def ProfileWF (T : Address) : Prop :=
  T.prefix_bech32_mainnet ≠ [] ∧
  T.prefix_bech32_testnet ≠ [] ∧
  (∀ c ∈ T.prefix_bech32_mainnet, isLowerAscii c = true) ∧
  (∀ c ∈ T.prefix_bech32_testnet, isLowerAscii c = true) ∧
  T.version_pubkeyhash_mainnet ≠ [] ∧
  T.version_pubkeyhash_mainnet.length ≤ 2 ∧
  T.version_scripthash_mainnet.length = T.version_pubkeyhash_mainnet.length ∧
  T.version_pubkeyhash_testnet.length = T.version_pubkeyhash_mainnet.length ∧
  T.version_scripthash_testnet.length = T.version_pubkeyhash_mainnet.length ∧
  (∀ b ∈ T.version_pubkeyhash_mainnet, b < 256) ∧
  (∀ b ∈ T.version_scripthash_mainnet, b < 256) ∧
  (∀ b ∈ T.version_pubkeyhash_testnet, b < 256) ∧
  (∀ b ∈ T.version_scripthash_testnet, b < 256) ∧
  T.version_pubkeyhash_mainnet ≠ T.version_scripthash_mainnet ∧
  T.version_pubkeyhash_mainnet ≠ T.version_pubkeyhash_testnet ∧
  T.version_pubkeyhash_mainnet ≠ T.version_scripthash_testnet ∧
  T.version_scripthash_mainnet ≠ T.version_pubkeyhash_testnet ∧
  T.version_scripthash_mainnet ≠ T.version_scripthash_testnet ∧
  T.version_pubkeyhash_testnet ≠ T.version_scripthash_testnet

/-- The addresses producible by this core's six constructors. -/
def IsProducible (C : Collab) (T : Address) (a : Address) : Prop :=
  (∃ pk nw, a = p2pkh C T pk nw) ∨
  (∃ scr nw, a = p2sh C T scr nw) ∨
  (∃ pk nw, p2wpkh C T pk nw = .ok a) ∨
  (∃ pk nw, p2shwpkh C T pk nw = .ok a) ∨
  (∃ scr nw, a = p2wsh C T scr nw) ∨
  (∃ scr nw, a = p2shwsh C T scr nw)

/-- Whether a payload serializes through the Base58Check path. -/
def is_base58_payload : Payload → Bool
  | .pubkeyHash _ => true
  | .scriptHash _ => true
  | .witnessProgram _ _ => false

/-! ### Shared helper lemmas -/

theorem collab0_wf : Collab.WF collab0 := by
  refine ⟨fun d => ⟨by simp [collab0], ?_⟩, fun hrp d => ⟨by simp [collab0], ?_⟩,
    fun d => ⟨by simp [collab0], ?_⟩, fun d => ⟨by simp [collab0], ?_⟩⟩ <;>
    · intro b hb
      simp [collab0] at hb
      omega

/-! #### Positional-number lemmas for the Base58 codec -/

theorem foldl_mul_add (b : Nat) (l : List Nat) (acc : Nat) :
    l.foldl (fun a d => a * b + d) acc
      = acc * b ^ l.length + l.foldl (fun a d => a * b + d) 0 := by
  induction l generalizing acc with
  | nil => simp
  | cons x t ih =>
    simp only [List.foldl_cons, List.length_cons]
    rw [ih (acc * b + x), ih (0 * b + x)]
    ring

theorem bytesToNat_cons (x : Nat) (t : List Nat) :
    bytesToNat (x :: t) = x * 256 ^ t.length + bytesToNat t := by
  unfold bytesToNat
  simp only [List.foldl_cons]
  rw [foldl_mul_add 256 t (0 * 256 + x)]
  ring_nf

theorem bytesToNat_lt (l : List Nat) (h : ∀ b ∈ l, b < 256) :
    bytesToNat l < 256 ^ l.length := by
  induction l with
  | nil => simp [bytesToNat]
  | cons x t ih =>
    rw [bytesToNat_cons]
    have hx : x < 256 := h x (by simp)
    have ht := ih (fun b hb => h b (List.mem_cons_of_mem _ hb))
    have h1 : (x + 1) * 256 ^ t.length ≤ 256 * 256 ^ t.length :=
      Nat.mul_le_mul_right _ (by omega)
    have h2 : 256 * 256 ^ t.length = 256 ^ (x :: t).length := by
      simp [List.length_cons, pow_succ]; ring
    have h3 : (x + 1) * 256 ^ t.length = x * 256 ^ t.length + 256 ^ t.length := by ring
    omega

theorem bytesToNat_ge (x : Nat) (t : List Nat) (hx : x ≠ 0) :
    256 ^ t.length ≤ bytesToNat (x :: t) := by
  rw [bytesToNat_cons]
  have : 1 * 256 ^ t.length ≤ x * 256 ^ t.length :=
    Nat.mul_le_mul_right _ (by omega)
  omega

theorem bytesToNat_replicate_zero_append (z : Nat) (l : List Nat) :
    bytesToNat (List.replicate z 0 ++ l) = bytesToNat l := by
  induction z with
  | zero => simp
  | succ n ih =>
    rw [List.replicate_succ, List.cons_append]
    have : bytesToNat (0 :: (List.replicate n 0 ++ l))
        = bytesToNat (List.replicate n 0 ++ l) := by
      simp [bytesToNat]
    rw [this, ih]

theorem natDigitsRev_zero (b fuel : Nat) : natDigitsRev b fuel 0 = [] := by
  cases fuel <;> simp [natDigitsRev]

theorem natDigitsRev_mem_lt (b fuel : Nat) (hb : 1 < b) :
    ∀ (n : Nat), ∀ d ∈ natDigitsRev b fuel n, d < b := by
  induction fuel with
  | zero => intro n d hd; simp [natDigitsRev] at hd
  | succ f ih =>
    intro n d hd
    unfold natDigitsRev at hd
    by_cases h0 : n = 0
    · simp [h0] at hd
    · rw [if_neg h0] at hd
      rcases List.mem_cons.mp hd with h | h
      · subst h; exact Nat.mod_lt _ (by omega)
      · exact ih _ d h

theorem natDigitsRev_foldr (b : Nat) (hb : 1 < b) :
    ∀ (fuel n : Nat), n < b ^ fuel →
    (natDigitsRev b fuel n).foldr (fun d acc => acc * b + d) 0 = n := by
  intro fuel
  induction fuel with
  | zero => intro n h; simp at h; simp [h, natDigitsRev]
  | succ f ih =>
    intro n h
    unfold natDigitsRev
    by_cases h0 : n = 0
    · simp [h0]
    · rw [if_neg h0]
      simp only [List.foldr_cons]
      have hdiv : n / b < b ^ f := by
        rw [Nat.div_lt_iff_lt_mul (by omega : 0 < b)]
        calc n < b ^ (f + 1) := h
          _ = b ^ f * b := by rw [pow_succ]
      rw [ih (n / b) hdiv]
      have h1 := Nat.div_add_mod n b
      have h2 : n / b * b = b * (n / b) := Nat.mul_comm _ _
      omega

theorem foldr_digits_lt (b : Nat) (l : List Nat) (h : ∀ d ∈ l, d < b) :
    l.foldr (fun d acc => acc * b + d) 0 < b ^ l.length := by
  induction l with
  | nil => simp
  | cons x t ih =>
    simp only [List.foldr_cons, List.length_cons]
    have hx : x < b := h x (by simp)
    have ht := ih (fun d hd => h d (List.mem_cons_of_mem _ hd))
    have h1 : (t.foldr (fun d acc => acc * b + d) 0 + 1) * b ≤ b ^ t.length * b :=
      Nat.mul_le_mul_right b (Nat.succ_le_of_lt ht)
    have h2 : (t.foldr (fun d acc => acc * b + d) 0 + 1) * b
        = t.foldr (fun d acc => acc * b + d) 0 * b + b := by ring
    have h3 : b ^ t.length * b = b ^ (t.length + 1) := (pow_succ b t.length).symm
    omega

theorem natDigitsRev_length_le (b : Nat) (hb : 1 < b) :
    ∀ (fuel n k : Nat), n < b ^ k → (natDigitsRev b fuel n).length ≤ k := by
  intro fuel
  induction fuel with
  | zero => intro n k _; simp [natDigitsRev]
  | succ f ih =>
    intro n k h
    unfold natDigitsRev
    by_cases h0 : n = 0
    · simp [h0]
    · rw [if_neg h0]
      simp only [List.length_cons]
      cases k with
      | zero => simp at h; omega
      | succ k' =>
        have hdiv : n / b < b ^ k' := by
          rw [Nat.div_lt_iff_lt_mul (by omega : 0 < b)]
          calc n < b ^ (k' + 1) := h
            _ = b ^ k' * b := by rw [pow_succ]
        have := ih (n / b) k' hdiv
        omega

theorem natDigitsRev_reverse_head_ne_zero (b : Nat) (hb : 1 < b) :
    ∀ (fuel n : Nat), n ≠ 0 → n < b ^ fuel →
    ∃ d ds, (natDigitsRev b fuel n).reverse = d :: ds ∧ d ≠ 0 := by
  intro fuel
  induction fuel with
  | zero => intro n h0 h; simp at h; omega
  | succ f ih =>
    intro n h0 h
    unfold natDigitsRev
    rw [if_neg h0]
    by_cases hq : n / b = 0
    · rw [hq, natDigitsRev_zero]
      refine ⟨n % b, [], by simp, ?_⟩
      have : n < b := (Nat.div_eq_zero_iff (by omega)).mp hq
      rw [Nat.mod_eq_of_lt this]
      exact h0
    · have hdiv : n / b < b ^ f := by
        rw [Nat.div_lt_iff_lt_mul (by omega : 0 < b)]
        calc n < b ^ (f + 1) := h
          _ = b ^ f * b := by rw [pow_succ]
      obtain ⟨d, ds, hds, hd⟩ := ih (n / b) hq hdiv
      exact ⟨d, ds ++ [n % b], by simp [List.reverse_cons, hds], hd⟩

theorem b58ValOf_one : b58ValOf '1' = some 0 := by decide

theorem b58ValOf_charOf : ∀ d : Nat, d < 58 → b58ValOf (b58CharOf d) = some d := by decide

theorem b58CharOf_ne_one : ∀ d : Nat, d < 58 → d ≠ 0 → (b58CharOf d == '1') = false := by
  decide

theorem takeWhile_zero_eq_replicate (l : List Nat) :
    l.takeWhile (· == 0) = List.replicate (l.takeWhile (· == 0)).length 0 := by
  induction l with
  | nil => rfl
  | cons x t ih =>
    by_cases hx0 : x = 0
    · subst hx0
      have h1 : (0 :: t).takeWhile (· == 0) = 0 :: t.takeWhile (· == 0) := by
        simp [List.takeWhile_cons]
      rw [h1, List.length_cons, List.replicate_succ, ← ih]
    · have h1 : (x :: t).takeWhile (· == 0) = [] := by
        simp [List.takeWhile_cons, hx0]
      rw [h1]
      rfl

theorem dropWhile_zero_head (l : List Nat) :
    (l.dropWhile (· == 0)).head? ≠ some 0 := by
  induction l with
  | nil => simp
  | cons x t ih =>
    rw [List.dropWhile_cons]
    cases hx : (x == 0) with
    | true => simpa using ih
    | false =>
      have : x ≠ 0 := by simpa using hx
      simpa using this

theorem b58ParseChars_append {l1 l2 : List Char} {v1 v2 : List Nat}
    (h1 : b58ParseChars l1 = .ok v1) (h2 : b58ParseChars l2 = .ok v2) :
    b58ParseChars (l1 ++ l2) = .ok (v1 ++ v2) := by
  induction l1 generalizing v1 with
  | nil =>
    unfold b58ParseChars at h1
    injection h1 with h1
    subst h1
    simpa using h2
  | cons c t ih =>
    unfold b58ParseChars at h1
    cases hv : b58ValOf c with
    | none => rw [hv] at h1; cases h1
    | some v =>
      rw [hv] at h1
      cases hp : b58ParseChars t with
      | error e => rw [hp] at h1; cases h1
      | ok vs =>
        rw [hp] at h1
        injection h1 with h1
        subst h1
        rw [List.cons_append]
        simp only [b58ParseChars]
        rw [hv, ih hp]
        rfl

theorem b58ParseChars_replicate_one (z : Nat) :
    b58ParseChars (List.replicate z '1') = .ok (List.replicate z 0) := by
  induction z with
  | zero => rfl
  | succ n ih =>
    rw [List.replicate_succ, List.replicate_succ]
    unfold b58ParseChars
    rw [b58ValOf_one, ih]

theorem b58ParseChars_map_charOf (ds : List Nat) (h : ∀ d ∈ ds, d < 58) :
    b58ParseChars (ds.map b58CharOf) = .ok ds := by
  induction ds with
  | nil => rfl
  | cons d t ih =>
    simp only [List.map_cons]
    unfold b58ParseChars
    rw [b58ValOf_charOf d (h d (by simp)),
      ih (fun x hx => h x (List.mem_cons_of_mem _ hx))]

theorem foldl58_replicate_zero (z : Nat) :
    (List.replicate z 0).foldl (fun a v => a * 58 + v) 0 = 0 := by
  induction z with
  | zero => rfl
  | succ n ih => simpa [List.replicate_succ] using ih

theorem takeWhile_one_replicate_append (z : Nat) (l : List Char)
    (hl : l.takeWhile (· == '1') = []) :
    (List.replicate z '1' ++ l).takeWhile (· == '1') = List.replicate z '1' := by
  induction z with
  | zero => simpa using hl
  | succ n ih =>
    rw [List.replicate_succ, List.cons_append, List.takeWhile_cons]
    simpa using ih

theorem natDigitsRev_bytesToNat :
    ∀ (rest : List Nat), ∀ (fuel : Nat),
      rest.head? ≠ some 0 → (∀ x ∈ rest, x < 256) → rest.length ≤ fuel →
      (natDigitsRev 256 fuel (bytesToNat rest)).reverse = rest := by
  intro rest
  induction rest using List.reverseRecOn with
  | nil =>
    intro fuel _ _ _
    have : bytesToNat [] = 0 := rfl
    rw [this, natDigitsRev_zero]
    rfl
  | append_singleton xs b ih =>
    intro fuel hhd hlt hfuel
    have hb : b < 256 := hlt b (by simp)
    have hval : bytesToNat (xs ++ [b]) = bytesToNat xs * 256 + b := by
      unfold bytesToNat
      rw [List.foldl_append]
      rfl
    cases fuel with
    | zero => simp at hfuel
    | succ f =>
      by_cases hxs : xs = []
      · subst hxs
        have hbne : b ≠ 0 := by simpa using hhd
        have hv0 : bytesToNat ([] ++ [b]) = b := by
          rw [hval]; simp [bytesToNat]
        rw [hv0]
        unfold natDigitsRev
        rw [if_neg hbne, Nat.mod_eq_of_lt hb,
          Nat.div_eq_of_lt hb, natDigitsRev_zero]
        rfl
      · obtain ⟨hx, txs, hcons⟩ : ∃ hx txs, xs = hx :: txs := by
          cases xs with
          | nil => exact absurd rfl hxs
          | cons a t => exact ⟨a, t, rfl⟩
        have hhx : hx ≠ 0 := by
          rw [hcons] at hhd
          simpa using hhd
        have hm : 1 ≤ bytesToNat xs := by
          rw [hcons]
          calc 1 ≤ 256 ^ txs.length := Nat.one_le_pow _ _ (by omega)
            _ ≤ bytesToNat (hx :: txs) := bytesToNat_ge hx txs hhx
        have hn0 : bytesToNat xs * 256 + b ≠ 0 := by
          have : 256 ≤ bytesToNat xs * 256 := by
            have := Nat.mul_le_mul_right 256 hm
            simpa using this
          omega
        rw [hval]
        unfold natDigitsRev
        rw [if_neg hn0]
        have hmod : (bytesToNat xs * 256 + b) % 256 = b := by
          rw [Nat.mul_comm (bytesToNat xs) 256, Nat.mul_add_mod, Nat.mod_eq_of_lt hb]
        have hdiv : (bytesToNat xs * 256 + b) / 256 = bytesToNat xs := by
          rw [Nat.mul_comm (bytesToNat xs) 256, Nat.mul_add_div (by omega),
            Nat.div_eq_of_lt hb]
          omega
        rw [hmod, hdiv, List.reverse_cons]
        have hrec : (natDigitsRev 256 f (bytesToNat xs)).reverse = xs := by
          refine ih f ?_ ?_ ?_
          · rw [hcons]; simpa using hhx
          · intro x hx'; exact hlt x (List.mem_append_left _ hx')
          · have : (xs ++ [b]).length = xs.length + 1 := by simp
            omega
        rw [hrec]

/-- Base58 raw encode/decode are mutual inverses on byte strings. -/
theorem base58_raw_roundtrip (bytes : List Nat) (h : ∀ x ∈ bytes, x < 256) :
    base58_raw_decode (base58_raw_encode bytes) = .ok bytes := by
  have hsplit : bytes
      = List.replicate (bytes.takeWhile (· == 0)).length 0 ++ bytes.dropWhile (· == 0) := by
    conv_lhs => rw [← List.takeWhile_append_dropWhile (p := (· == 0)) (l := bytes)]
    rw [← takeWhile_zero_eq_replicate]
  have hrest_mem : ∀ x ∈ bytes.dropWhile (· == 0), x < 256 := by
    intro x hx
    exact h x (by rw [hsplit]; exact List.mem_append_right _ hx)
  have hN : bytesToNat bytes = bytesToNat (bytes.dropWhile (· == 0)) := by
    conv_lhs => rw [hsplit]
    rw [bytesToNat_replicate_zero_append]
  have hNlt : bytesToNat bytes < 256 ^ (bytes.dropWhile (· == 0)).length := by
    rw [hN]; exact bytesToNat_lt _ hrest_mem
  have hdrop_le : (bytes.dropWhile (· == 0)).length ≤ bytes.length :=
    List.Sublist.length_le (List.dropWhile_sublist _)
  have hpow : ∀ m : Nat, (256 : Nat) ^ m ≤ 58 ^ (2 * m) := by
    intro m
    calc (256 : Nat) ^ m ≤ 3364 ^ m := Nat.pow_le_pow_left (by omega) m
      _ = (58 ^ 2) ^ m := by norm_num
      _ = 58 ^ (2 * m) := by rw [← pow_mul, Nat.mul_comm]
  have hfuel : bytesToNat bytes < 58 ^ (2 * bytes.length) := by
    calc bytesToNat bytes < 256 ^ (bytes.dropWhile (· == 0)).length := hNlt
      _ ≤ 256 ^ bytes.length := Nat.pow_le_pow_right (by omega) hdrop_le
      _ ≤ 58 ^ (2 * bytes.length) := hpow _
  have hdig_lt : ∀ d ∈ natDigitsRev 58 (2 * bytes.length) (bytesToNat bytes), d < 58 :=
    natDigitsRev_mem_lt 58 _ (by omega) _
  have hfoldr : (natDigitsRev 58 (2 * bytes.length) (bytesToNat bytes)).foldr
      (fun d acc => acc * 58 + d) 0 = bytesToNat bytes :=
    natDigitsRev_foldr 58 (by omega) _ _ hfuel
  unfold base58_raw_encode base58_raw_decode
  rw [b58ParseChars_append (b58ParseChars_replicate_one _)
    (b58ParseChars_map_charOf _ (fun d hd => hdig_lt d (List.mem_reverse.mp hd)))]
  simp only
  rw [List.foldl_append, foldl58_replicate_zero, List.foldl_reverse]
  have hfold_eq : (natDigitsRev 58 (2 * bytes.length) (bytesToNat bytes)).foldr
      (fun x y => y * 58 + x) 0 = bytesToNat bytes := hfoldr
  rw [hfold_eq]
  by_cases hN0 : bytesToNat bytes = 0
  · -- no significant digits: the input was all zero bytes
    have hrest_nil : bytes.dropWhile (· == 0) = [] := by
      cases hcase : bytes.dropWhile (· == 0) with
      | nil => rfl
      | cons hd t =>
        have hhd : hd ≠ 0 := by
          have := dropWhile_zero_head bytes
          rw [hcase] at this
          simpa using this
        have : 256 ^ t.length ≤ bytesToNat (bytes.dropWhile (· == 0)) := by
          rw [hcase]; exact bytesToNat_ge hd t hhd
        have h1 : 1 ≤ 256 ^ t.length := Nat.one_le_pow _ _ (by omega)
        rw [← hN] at this
        omega
    have hdig_nil : natDigitsRev 58 (2 * bytes.length) (bytesToNat bytes) = [] := by
      rw [hN0, natDigitsRev_zero]
    rw [hdig_nil, hN0]
    simp only [List.reverse_nil, List.map_nil, natDigitsRev_zero]
    rw [takeWhile_one_replicate_append _ [] rfl, List.length_replicate]
    conv_rhs => rw [hsplit, hrest_nil]
  · -- there is a most significant digit, and it is not '1'
    obtain ⟨d, ds, hds, hdne⟩ :=
      natDigitsRev_reverse_head_ne_zero 58 (by omega) _ _ hN0 hfuel
    have hd58 : d < 58 := by
      refine hdig_lt d ?_
      have : d ∈ (natDigitsRev 58 (2 * bytes.length) (bytesToNat bytes)).reverse := by
        rw [hds]; simp
      exact List.mem_reverse.mp this
    have htw : ((natDigitsRev 58 (2 * bytes.length) (bytesToNat bytes)).reverse.map
        b58CharOf).takeWhile (· == '1') = [] := by
      rw [hds]
      simp only [List.map_cons, List.takeWhile_cons]
      rw [b58CharOf_ne_one d hd58 hdne]
      rfl
    rw [takeWhile_one_replicate_append _ _ htw, List.length_replicate]
    -- decode the significant digits back into the dropWhile-suffix
    have hrest_ne : bytes.dropWhile (· == 0) ≠ [] := by
      intro hnil
      rw [hN, hnil] at hN0
      exact hN0 rfl
    obtain ⟨hd0, t0, hcons⟩ : ∃ hd0 t0, bytes.dropWhile (· == 0) = hd0 :: t0 := by
      cases hcase : bytes.dropWhile (· == 0) with
      | nil => exact absurd hcase hrest_ne
      | cons a t => exact ⟨a, t, rfl⟩
    have hhd0 : hd0 ≠ 0 := by
      have := dropWhile_zero_head bytes
      rw [hcons] at this
      simpa using this
    have hlen_le : (bytes.dropWhile (· == 0)).length
        ≤ (natDigitsRev 58 (2 * bytes.length) (bytesToNat bytes)).length := by
      have hlow : 256 ^ t0.length ≤ bytesToNat bytes := by
        rw [hN, hcons]; exact bytesToNat_ge hd0 t0 hhd0
      have hlow58 : 58 ^ t0.length ≤ bytesToNat bytes :=
        le_trans (Nat.pow_le_pow_left (by omega) _) hlow
      have hup : bytesToNat bytes
          < 58 ^ (natDigitsRev 58 (2 * bytes.length) (bytesToNat bytes)).length := by
        conv_lhs => rw [← hfoldr]
        exact foldr_digits_lt 58 _ hdig_lt
      have : t0.length < (natDigitsRev 58 (2 * bytes.length) (bytesToNat bytes)).length := by
        have hlt := lt_of_le_of_lt hlow58 hup
        exact (Nat.pow_lt_pow_iff_right (by omega : 1 < 58)).mp hlt
      rw [hcons]
      simpa using this
    have hrec : (natDigitsRev 256
        ((List.replicate (bytes.takeWhile (· == 0)).length '1' ++
          (natDigitsRev 58 (2 * bytes.length) (bytesToNat bytes)).reverse.map
            b58CharOf).length)
        (bytesToNat bytes)).reverse = bytes.dropWhile (· == 0) := by
      rw [hN]
      refine natDigitsRev_bytesToNat _ _ (dropWhile_zero_head bytes) hrest_mem ?_
      rw [← hN]
      simp only [List.length_append, List.length_replicate, List.length_map,
        List.length_reverse]
      omega
    rw [hrec]
    exact congrArg Except.ok hsplit.symm

/-- Base58Check encode/decode are mutual inverses, for any checksum
collaborator producing at least four bytes. -/
theorem base58_check_roundtrip (sha : List Nat → List Nat) (data : List Nat)
    (hd : ∀ x ∈ data, x < 256)
    (hlen : 4 ≤ (sha data).length) (hsha : ∀ x ∈ sha data, x < 256) :
    base58_from_check sha (base58_check_encode sha data) = .ok data := by
  unfold base58_check_encode base58_from_check
  rw [base58_raw_roundtrip (data ++ (sha data).take 4) ?hmem]
  case hmem =>
    intro x hx
    rcases List.mem_append.mp hx with h | h
    · exact hd x h
    · exact hsha x (List.take_subset _ _ h)
  have htk : ((sha data).take 4).length = 4 := by
    rw [List.length_take]
    omega
  have hL : (data ++ (sha data).take 4).length = data.length + 4 := by
    rw [List.length_append, htk]
  simp only
  rw [if_neg (by omega)]
  have hsub : (data ++ (sha data).take 4).length - 4 = data.length := by
    rw [hL]
    omega
  rw [hsub, List.take_left, List.drop_left, if_pos rfl]

theorem lastIdxOfOne_eq_none {l : List Char} (h : '1' ∉ l) : lastIdxOfOne l = none := by
  induction l with
  | nil => rfl
  | cons c rest ih =>
    simp only [List.mem_cons, not_or] at h
    unfold lastIdxOfOne
    rw [ih h.2, if_neg (fun hc => h.1 hc.symm)]

theorem lastIdxOfOne_append {data : List Char} (pre : List Char) (h : '1' ∉ data) :
    lastIdxOfOne (pre ++ '1' :: data) = some pre.length := by
  induction pre with
  | nil =>
    simp only [List.nil_append]
    unfold lastIdxOfOne
    rw [lastIdxOfOne_eq_none h, if_pos rfl]
    rfl
  | cons c rest ih =>
    simp only [List.cons_append]
    unfold lastIdxOfOne
    rw [ih]
    simp

theorem find_bech32_hrp_no_sep {s : List Char} (h : '1' ∉ s) : find_bech32_hrp s = s := by
  unfold find_bech32_hrp
  rw [lastIdxOfOne_eq_none h]

theorem find_bech32_hrp_append {data : List Char} (pre : List Char) (h : '1' ∉ data) :
    find_bech32_hrp (pre ++ '1' :: data) = pre := by
  unfold find_bech32_hrp
  rw [lastIdxOfOne_append pre h]
  exact List.take_left pre ('1' :: data)

/-! #### Bit-regrouping and bech32 string lemmas -/

theorem u5Bits_bitsToNat : ∀ a b c d e : Bool,
    u5Bits (bitsToNatMSB [a, b, c, d, e]) = [a, b, c, d, e] := by decide

theorem bitsToNatMSB_lt5 : ∀ a b c d e : Bool, bitsToNatMSB [a, b, c, d, e] < 32 := by
  decide

theorem byte_bitsToNat : ∀ n : Nat, n < 256 → bitsToNatMSB (byte8Bits n) = n := by decide

theorem chunk5_flatMap (l : List Bool) (h : l.length % 5 = 0) :
    (chunk5 l).flatMap u5Bits = l := by
  match l with
  | [] => rfl
  | [a] | [a, b] | [a, b, c] | [a, b, c, d] => simp at h
  | a :: b :: c :: d :: e :: rest =>
    have hr : rest.length % 5 = 0 := by
      simp only [List.length_cons] at h
      omega
    have ih := chunk5_flatMap rest hr
    simp only [chunk5, List.flatMap_cons, u5Bits_bitsToNat a b c d e, ih]
    rfl
termination_by l.length

theorem chunk5_mem_lt (l : List Bool) : ∀ v ∈ chunk5 l, v < 32 := by
  match l with
  | [] => intro v hv; simp [chunk5] at hv
  | [a] | [a, b] | [a, b, c] | [a, b, c, d] => intro v hv; simp [chunk5] at hv
  | a :: b :: c :: d :: e :: rest =>
    intro v hv
    rw [chunk5] at hv
    rcases List.mem_cons.mp hv with h | h
    · subst h; exact bitsToNatMSB_lt5 a b c d e
    · exact chunk5_mem_lt rest v h
termination_by l.length

theorem chunk8_flatMap_bytes (bytes : List Nat) (h : ∀ b ∈ bytes, b < 256) :
    chunk8 (bytes.flatMap byte8Bits) = bytes := by
  induction bytes with
  | nil => rfl
  | cons b t ih =>
    have hb : b < 256 := h b (by simp)
    have hstep : (b :: t).flatMap byte8Bits
        = b.testBit 7 :: b.testBit 6 :: b.testBit 5 :: b.testBit 4 :: b.testBit 3 ::
          b.testBit 2 :: b.testBit 1 :: b.testBit 0 :: t.flatMap byte8Bits := rfl
    rw [hstep]
    simp only [chunk8]
    have hv : bitsToNatMSB [b.testBit 7, b.testBit 6, b.testBit 5, b.testBit 4,
        b.testBit 3, b.testBit 2, b.testBit 1, b.testBit 0] = b := byte_bitsToNat b hb
    rw [hv, ih (fun x hx => h x (List.mem_cons_of_mem _ hx))]

theorem flatMap_byte8Bits_length (bytes : List Nat) :
    (bytes.flatMap byte8Bits).length = 8 * bytes.length := by
  induction bytes with
  | nil => rfl
  | cons b t ih =>
    simp only [List.flatMap_cons, List.length_append, List.length_cons, ih, byte8Bits]
    simp
    ring

theorem toBase32_mem_lt (bytes : List Nat) : ∀ v ∈ toBase32 bytes, v < 32 := by
  unfold toBase32
  exact chunk5_mem_lt _

/-- The 8→5→8 regrouping round-trip with strict padding check. -/
theorem fromBase32_toBase32 (bytes : List Nat) (h : ∀ b ∈ bytes, b < 256) :
    fromBase32 (toBase32 bytes) = .ok bytes := by
  unfold toBase32 fromBase32
  simp only
  set bits := bytes.flatMap byte8Bits with hbits
  set p := (5 - bits.length % 5) % 5 with hp
  have hp4 : p < 5 := by omega
  have htot : (bits ++ List.replicate p false).length % 5 = 0 := by
    simp only [List.length_append, List.length_replicate]
    omega
  rw [chunk5_flatMap _ htot]
  have hL : (bits ++ List.replicate p false).length = bits.length + p := by
    simp
  have hrb : (bits ++ List.replicate p false).length % 8 = p := by
    rw [hL, hbits, flatMap_byte8Bits_length]
    omega
  have hsub : (bits ++ List.replicate p false).length
      - (bits ++ List.replicate p false).length % 8 = bits.length := by
    rw [hrb, hL]
    omega
  rw [hsub, List.drop_left, List.take_left, hrb]
  have hdrop : (List.replicate p false).any id = false := by
    simp
  rw [hdrop]
  rw [if_neg (by simp only [Bool.false_eq_true, or_false]; omega)]
  rw [chunk8_flatMap_bytes bytes h]

theorem bech32ValOf_charOf : ∀ v : Nat, v < 32 →
    bech32ValOf (bech32CharOf v) = some v := by decide

theorem bech32CharOf_ne_one : ∀ v : Nat, v < 32 → bech32CharOf v ≠ '1' := by decide

theorem bech32CharOf_not_upper : ∀ v : Nat, v < 32 →
    isUpperAscii (bech32CharOf v) = false := by decide

theorem asciiLower_bech32CharOf : ∀ v : Nat, v < 32 →
    asciiLower (bech32CharOf v) = bech32CharOf v := by decide

theorem asciiLower_of_lower {c : Char} (h : isLowerAscii c = true) : asciiLower c = c := by
  unfold asciiLower
  rw [if_neg]
  rintro ⟨h1, h2⟩
  unfold isLowerAscii at h
  simp only [Bool.and_eq_true, decide_eq_true_eq] at h
  exact absurd (le_trans h.1 h2) (by decide)

theorem not_upper_of_lower {c : Char} (h : isLowerAscii c = true) :
    isUpperAscii c = false := by
  unfold isLowerAscii at h
  unfold isUpperAscii
  simp only [Bool.and_eq_true, decide_eq_true_eq] at h
  simp only [Bool.and_eq_false_iff, decide_eq_false_iff_not]
  right
  intro h2
  exact absurd (le_trans h.1 h2) (by decide)

theorem bech32ParseChars_map_charOf (vs : List Nat) (h : ∀ v ∈ vs, v < 32) :
    bech32ParseChars (vs.map bech32CharOf) = .ok vs := by
  induction vs with
  | nil => rfl
  | cons v t ih =>
    simp only [List.map_cons]
    unfold bech32ParseChars
    rw [bech32ValOf_charOf v (h v (by simp)),
      ih (fun x hx => h x (List.mem_cons_of_mem _ hx))]

theorem eq_ignore_refl (l : List Char) : eq_ignore_ascii_case l l = true := by
  induction l with
  | nil => rfl
  | cons c t ih =>
    unfold eq_ignore_ascii_case
    simp [ih]

theorem drop_append_cons {α : Type} (l1 l2 : List α) (x : α) :
    (l1 ++ x :: l2).drop (l1.length + 1) = l2 := by
  induction l1 with
  | nil => simp
  | cons a t ih =>
    rw [List.cons_append, List.length_cons]
    exact ih

theorem list_map_fix {α : Type} {f : α → α} {l : List α} (h : ∀ x ∈ l, f x = x) :
    l.map f = l := by
  induction l with
  | nil => rfl
  | cons a t ih =>
    simp only [List.map_cons]
    rw [h a (by simp), ih (fun x hx => h x (List.mem_cons_of_mem _ hx))]

/-- Decoding an encoded bech32 string recovers the prefix and data, for
any checksum collaborator producing six in-range groups. -/
theorem bech32_decode_encode (cksum : List Char → List Nat → List Nat)
    (hrp : List Char) (data : List Nat)
    (hhrp_ne : hrp ≠ [])
    (hhrp_lower : ∀ c ∈ hrp, isLowerAscii c = true)
    (hdata : ∀ v ∈ data, v < 32)
    (hck_len : (cksum hrp data).length = 6)
    (hck_lt : ∀ v ∈ cksum hrp data, v < 32) :
    bech32_decode cksum (bech32_encode cksum hrp data) = .ok (hrp, data) := by
  unfold bech32_encode bech32_decode
  have hall_lt : ∀ v ∈ data ++ cksum hrp data, v < 32 := by
    intro v hv
    rcases List.mem_append.mp hv with h | h
    · exact hdata v h
    · exact hck_lt v h
  have hmap_ne_one : '1' ∉ (data ++ cksum hrp data).map bech32CharOf := by
    intro hmem
    obtain ⟨v, hv, hveq⟩ := List.mem_map.mp hmem
    exact bech32CharOf_ne_one v (hall_lt v hv) hveq
  have hno_upper : ((hrp ++ '1' :: (data ++ cksum hrp data).map bech32CharOf).any
      isUpperAscii) = false := by
    rw [List.any_eq_false]
    intro c hc
    rcases List.mem_append.mp hc with h | h
    · rw [not_upper_of_lower (hhrp_lower c h)]
      simp
    · rcases List.mem_cons.mp h with h | h
      · subst h; decide
      · obtain ⟨v, hv, hveq⟩ := List.mem_map.mp h
        rw [← hveq, bech32CharOf_not_upper v (hall_lt v hv)]
        simp
  have hlower_fix : (hrp ++ '1' :: (data ++ cksum hrp data).map bech32CharOf).map
      asciiLower = hrp ++ '1' :: (data ++ cksum hrp data).map bech32CharOf := by
    refine list_map_fix ?_
    intro c hc
    rcases List.mem_append.mp hc with h | h
    · exact asciiLower_of_lower (hhrp_lower c h)
    · rcases List.mem_cons.mp h with h | h
      · subst h; decide
      · obtain ⟨v, hv, hveq⟩ := List.mem_map.mp h
        rw [← hveq]
        exact asciiLower_bech32CharOf v (hall_lt v hv)
  rw [if_neg (by rw [hno_upper]; simp)]
  simp only [hlower_fix, lastIdxOfOne_append hrp hmap_ne_one, List.take_left,
    drop_append_cons]
  rw [if_neg hhrp_ne]
  have hlen_map : ((data ++ cksum hrp data).map bech32CharOf).length
      = data.length + 6 := by
    simp [hck_len]
  rw [if_neg (by omega : ¬ ((data ++ cksum hrp data).map bech32CharOf).length < 6)]
  simp only [bech32ParseChars_map_charOf _ hall_lt]
  have hlen_vs : (data ++ cksum hrp data).length = data.length + 6 := by
    simp [hck_len]
  have hsub : (data ++ cksum hrp data).length - 6 = data.length := by
    omega
  rw [hsub]
  have htake : (data ++ cksum hrp data).take data.length = data := List.take_left _ _
  have hdrop : (data ++ cksum hrp data).drop data.length = cksum hrp data :=
    List.drop_left _ _
  rw [htake, hdrop, if_pos rfl]

/-- Length bound: the Base58 encoding of at most 26 bytes fits in 50
characters, so the overlong-input guard never fires on addresses this core
serializes. -/
theorem base58_raw_encode_length_le (bytes : List Nat) (hlen : bytes.length ≤ 26)
    (h : ∀ x ∈ bytes, x < 256) : (base58_raw_encode bytes).length ≤ 50 := by
  unfold base58_raw_encode
  simp only [List.length_append, List.length_replicate, List.length_map,
    List.length_reverse]
  have hsplit : bytes
      = List.replicate (bytes.takeWhile (· == 0)).length 0 ++ bytes.dropWhile (· == 0) := by
    conv_lhs => rw [← List.takeWhile_append_dropWhile (p := (· == 0)) (l := bytes)]
    rw [← takeWhile_zero_eq_replicate]
  have hzd : (bytes.takeWhile (· == 0)).length + (bytes.dropWhile (· == 0)).length
      = bytes.length := by
    conv_rhs => rw [hsplit]
    simp
  have hrest_mem : ∀ x ∈ bytes.dropWhile (· == 0), x < 256 := by
    intro x hx
    exact h x (by rw [hsplit]; exact List.mem_append_right _ hx)
  have hN : bytesToNat bytes < 256 ^ (bytes.dropWhile (· == 0)).length := by
    conv_lhs => rw [hsplit]
    rw [bytesToNat_replicate_zero_append]
    exact bytesToNat_lt _ hrest_mem
  have hpow : ∀ m : Nat, (256 : Nat) ^ m ≤ 58 ^ (2 * m) := by
    intro m
    calc (256 : Nat) ^ m ≤ 3364 ^ m := Nat.pow_le_pow_left (by omega) m
      _ = (58 ^ 2) ^ m := by norm_num
      _ = 58 ^ (2 * m) := by rw [← pow_mul, Nat.mul_comm]
  by_cases hz : 2 ≤ (bytes.takeWhile (· == 0)).length
  · have hdl : (natDigitsRev 58 (2 * bytes.length) (bytesToNat bytes)).length
        ≤ 2 * (bytes.dropWhile (· == 0)).length :=
      natDigitsRev_length_le 58 (by omega) _ _ _ (lt_of_lt_of_le hN (hpow _))
    omega
  · have h26 : (256 : Nat) ^ (bytes.dropWhile (· == 0)).length ≤ 256 ^ 26 :=
      Nat.pow_le_pow_right (by omega) (by omega)
    have hbig : (256 : Nat) ^ 26 ≤ 58 ^ 36 := by norm_num
    have hdl : (natDigitsRev 58 (2 * bytes.length) (bytesToNat bytes)).length ≤ 36 :=
      natDigitsRev_length_le 58 (by omega) _ _ _
        (lt_of_lt_of_le hN (le_trans h26 hbig))
    omega

theorem bech32_network_of_eq_some {T : Address} {s : List Char} {nw : Network}
    (h : bech32_network_of T s = some nw) : nw = .testnet ∨ nw = .bitcoin := by
  unfold bech32_network_of at h
  split_ifs at h <;> simp_all

/-- The Base58 path of `from_str` applied to a Base58Check-encoded
version-plus-hash payload: the decode succeeds and reduces to the
version-comparison chain. -/
theorem base58path_of_encode (C : Collab) (T : Address) (V hsh : List Nat)
    (hsha4 : ∀ d, 4 ≤ (C.sha256d d).length ∧ ∀ b ∈ C.sha256d d, b < 256)
    (hVlen : V.length = T.version_pubkeyhash_mainnet.length)
    (hVle : T.version_pubkeyhash_mainnet.length ≤ 2)
    (hVlt : ∀ x ∈ V, x < 256)
    (hh20 : hsh.length = 20) (hhlt : ∀ x ∈ hsh, x < 256) :
    from_str_base58path C T (base58_check_encode C.sha256d (V ++ hsh))
      = (if V = T.version_pubkeyhash_mainnet then
          .ok { T with network := .bitcoin, payload := .pubkeyHash hsh }
        else if V = T.version_scripthash_mainnet then
          .ok { T with network := .bitcoin, payload := .scriptHash hsh }
        else if V = T.version_pubkeyhash_testnet then
          .ok { T with network := .testnet, payload := .pubkeyHash hsh }
        else if V = T.version_scripthash_testnet then
          .ok { T with network := .testnet, payload := .scriptHash hsh }
        else .error (.Base58 (.InvalidVersion V))) := by
  have hdata_lt : ∀ x ∈ V ++ hsh, x < 256 := by
    intro x hx
    rcases List.mem_append.mp hx with hx | hx
    · exact hVlt x hx
    · exact hhlt x hx
  have h50 : (base58_check_encode C.sha256d (V ++ hsh)).length ≤ 50 := by
    unfold base58_check_encode
    refine base58_raw_encode_length_le _ ?_ ?_
    · have ht4 : ((C.sha256d (V ++ hsh)).take 4).length = 4 := by
        rw [List.length_take]
        have := (hsha4 (V ++ hsh)).1
        omega
      simp only [List.length_append, hh20, ht4]
      omega
    · intro x hx
      rcases List.mem_append.mp hx with hx | hx
      · exact hdata_lt x hx
      · exact (hsha4 _).2 x (List.take_subset _ _ hx)
  unfold from_str_base58path
  rw [if_neg (by omega)]
  simp only [base58_check_roundtrip C.sha256d (V ++ hsh) hdata_lt (hsha4 _).1 (hsha4 _).2]
  have hdlen : (V ++ hsh).length = 20 + T.version_pubkeyhash_mainnet.length := by
    rw [List.length_append, hVlen, hh20]
    omega
  rw [if_neg (fun hne => hne hdlen)]
  have htake : (V ++ hsh).take T.version_pubkeyhash_mainnet.length = V := by
    rw [← hVlen]
    exact List.take_left V hsh
  have hdropp : (V ++ hsh).drop T.version_pubkeyhash_mainnet.length = hsh := by
    rw [← hVlen]
    exact List.drop_left V hsh
  rw [htake, hdropp]

/-- Round-trip of a Base58-payload address through `to_string`/`from_str`
on networks Bitcoin and Testnet, provided the serialized string's
extracted prefix matched neither bech32 prefix. -/
theorem from_str_to_string_base58 (C : Collab) (T : Address) (hsh : List Nat)
    (pay : Payload) (nw : Network)
    (hC : Collab.WF C) (hT : ProfileWF T)
    (hpay : pay = .pubkeyHash hsh ∨ pay = .scriptHash hsh)
    (hh20 : hsh.length = 20) (hhlt : ∀ x ∈ hsh, x < 256)
    (hnw : nw = .bitcoin ∨ nw = .testnet)
    (hnomatch : bech32_network_of T
      (to_string C { T with payload := pay, network := nw }) = none) :
    from_str C T (to_string C { T with payload := pay, network := nw })
      = .ok { T with payload := pay, network := nw } := by
  obtain ⟨hpm_ne, hpt_ne, hpm_low, hpt_low, hv_ne, hv_le2, hsm_len, hpt_len, hst_len,
    hpm_lt, hsm_lt, hpt_lt, hst_lt, hd1, hd2, hd3, hd4, hd5, hd6⟩ := hT
  unfold from_str
  rcases hpay with hpay | hpay <;> rcases hnw with hnw | hnw <;> subst hpay <;> subst hnw <;>
    simp only [hnomatch]
  · rw [show to_string C { T with payload := .pubkeyHash hsh, network := .bitcoin }
        = base58_check_encode C.sha256d (T.version_pubkeyhash_mainnet ++ hsh) from rfl]
    rw [base58path_of_encode C T _ hsh hC.1 rfl hv_le2 hpm_lt hh20 hhlt]
    rw [if_pos rfl]
  · rw [show to_string C { T with payload := .pubkeyHash hsh, network := .testnet }
        = base58_check_encode C.sha256d (T.version_pubkeyhash_testnet ++ hsh) from rfl]
    rw [base58path_of_encode C T _ hsh hC.1 hpt_len hv_le2 hpt_lt hh20 hhlt]
    rw [if_neg (fun heq => hd2 heq.symm), if_neg (fun heq => hd4 heq.symm), if_pos rfl]
  · rw [show to_string C { T with payload := .scriptHash hsh, network := .bitcoin }
        = base58_check_encode C.sha256d (T.version_scripthash_mainnet ++ hsh) from rfl]
    rw [base58path_of_encode C T _ hsh hC.1 hsm_len hv_le2 hsm_lt hh20 hhlt]
    rw [if_neg (fun heq => hd1 heq.symm), if_pos rfl]
  · rw [show to_string C { T with payload := .scriptHash hsh, network := .testnet }
        = base58_check_encode C.sha256d (T.version_scripthash_testnet ++ hsh) from rfl]
    rw [base58path_of_encode C T _ hsh hC.1 hst_len hv_le2 hst_lt hh20 hhlt]
    rw [if_neg (fun heq => hd3 heq.symm), if_neg (fun heq => hd5 heq.symm),
      if_neg (fun heq => hd6 heq.symm), if_pos rfl]

/-- Round-trip of a version-0 witness-program address through
`to_string`/`from_str` on networks Bitcoin and Testnet, provided (on
mainnet) the two profile prefixes are distinguishable. -/
theorem from_str_to_string_segwit (C : Collab) (T : Address) (prog : List Nat)
    (nw : Network)
    (hC : Collab.WF C) (hT : ProfileWF T)
    (hnw : nw = .bitcoin ∨ nw = .testnet)
    (hplen : prog.length = 20 ∨ prog.length = 32)
    (hplt : ∀ x ∈ prog, x < 256)
    (hdistinct : nw = .bitcoin →
      eq_ignore_ascii_case T.prefix_bech32_testnet T.prefix_bech32_mainnet = false) :
    from_str C T (to_string C { T with payload := .witnessProgram 0 prog, network := nw })
      = .ok { T with payload := .witnessProgram 0 prog, network := nw } := by
  obtain ⟨hpm_ne, hpt_ne, hpm_low, hpt_low, _⟩ := hT
  have hck := hC.2.1
  have hdlt : ∀ v ∈ 0 :: toBase32 prog, v < 32 := by
    intro v hv
    rcases List.mem_cons.mp hv with hv | hv
    · omega
    · exact toBase32_mem_lt prog v hv
  have hmap_ne_one : ∀ hrp0 : List Char,
      '1' ∉ ((0 :: toBase32 prog) ++ C.bech32_checksum hrp0 (0 :: toBase32 prog)).map
        bech32CharOf := by
    intro hrp0 hmem
    obtain ⟨v, hv, hveq⟩ := List.mem_map.mp hmem
    rcases List.mem_append.mp hv with hv | hv
    · exact bech32CharOf_ne_one v (hdlt v hv) hveq
    · exact bech32CharOf_ne_one v ((hck hrp0 _).2 v hv) hveq
  rcases hnw with hnw | hnw <;> subst hnw
  · have hts : to_string C { T with payload := .witnessProgram 0 prog, network := .bitcoin }
        = bech32_encode C.bech32_checksum T.prefix_bech32_mainnet (0 :: toBase32 prog) :=
      rfl
    rw [hts]
    have hfind : find_bech32_hrp (bech32_encode C.bech32_checksum
        T.prefix_bech32_mainnet (0 :: toBase32 prog)) = T.prefix_bech32_mainnet := by
      unfold bech32_encode
      exact find_bech32_hrp_append _ (hmap_ne_one _)
    have hbn : bech32_network_of T (bech32_encode C.bech32_checksum
        T.prefix_bech32_mainnet (0 :: toBase32 prog)) = some .bitcoin := by
      unfold bech32_network_of
      rw [hfind, if_neg (by rw [hdistinct rfl]; simp), if_pos (eq_ignore_refl _)]
    unfold from_str
    simp only [hbn]
    unfold from_str_bech32path
    simp only [bech32_decode_encode C.bech32_checksum _ _ hpm_ne hpm_low hdlt
      (hck _ _).1 (hck _ _).2]
    simp only [fromBase32_toBase32 prog hplt]
    rw [if_neg (by omega), if_neg (by rcases hplen with h | h <;> omega),
      if_neg (by rcases hplen with h | h <;> simp [h])]
  · have hts : to_string C { T with payload := .witnessProgram 0 prog, network := .testnet }
        = bech32_encode C.bech32_checksum T.prefix_bech32_testnet (0 :: toBase32 prog) :=
      rfl
    rw [hts]
    have hfind : find_bech32_hrp (bech32_encode C.bech32_checksum
        T.prefix_bech32_testnet (0 :: toBase32 prog)) = T.prefix_bech32_testnet := by
      unfold bech32_encode
      exact find_bech32_hrp_append _ (hmap_ne_one _)
    have hbn : bech32_network_of T (bech32_encode C.bech32_checksum
        T.prefix_bech32_testnet (0 :: toBase32 prog)) = some .testnet := by
      unfold bech32_network_of
      rw [hfind, if_pos (eq_ignore_refl _)]
    unfold from_str
    simp only [hbn]
    unfold from_str_bech32path
    simp only [bech32_decode_encode C.bech32_checksum _ _ hpt_ne hpt_low hdlt
      (hck _ _).1 (hck _ _).2]
    simp only [fromBase32_toBase32 prog hplt]
    rw [if_neg (by omega), if_neg (by rcases hplen with h | h <;> omega),
      if_neg (by rcases hplen with h | h <;> simp [h])]

/-! ### Claim theorems -/

/-- C2: in the bech32 decode path of `from_str`, after a prefix match and a
successful bech32 checksum decode (and 5→8 regrouping of the program), the
three validity gates are evaluated in order — version > 16 fails with
`InvalidWitnessVersion` regardless of program length, then program length
outside [2,40] fails with `InvalidWitnessProgramLength`, then version 0
with length not 20 and not 32 fails with `InvalidSegwitV0ProgramLength` —
and the returned error identifies the gate. -/
theorem C2_bech32_gate_order (C : Collab) (T : Address) (s : List Char)
    (network : Network) (hrp : List Char) (version : Nat) (p5 program : List Nat)
    (hnet : bech32_network_of T s = some network)
    (hdec : bech32_decode C.bech32_checksum s = .ok (hrp, version :: p5))
    (hprog : fromBase32 p5 = .ok program) :
    (16 < version → from_str C T s = .error (.InvalidWitnessVersion version)) ∧
    (version ≤ 16 → program.length < 2 ∨ 40 < program.length →
      from_str C T s = .error (.InvalidWitnessProgramLength program.length)) ∧
    (version = 0 → 2 ≤ program.length → program.length ≤ 40 →
      program.length ≠ 20 → program.length ≠ 32 →
      from_str C T s = .error (.InvalidSegwitV0ProgramLength program.length)) := by
  unfold from_str from_str_bech32path
  simp only [hnet, hdec, hprog]
  refine ⟨fun h16 => ?_, fun h16 hl => ?_, fun h0 hl2 hl40 h20 h32 => ?_⟩
  · rw [if_pos h16]
  · rw [if_neg (by omega), if_pos (by omega)]
  · rw [if_neg (by omega), if_neg (by omega), if_pos ⟨h0, h20, h32⟩]

theorem C2_witness :
    (from_str collab0 new_btc
        (bech32_encode collab0.bech32_checksum ['b', 'c']
          (17 :: toBase32 (List.replicate 20 1)))
      = .error (.InvalidWitnessVersion 17)) ∧
    (from_str collab0 new_btc
        (bech32_encode collab0.bech32_checksum ['b', 'c'] (3 :: toBase32 [5]))
      = .error (.InvalidWitnessProgramLength 1)) ∧
    (from_str collab0 new_btc
        (bech32_encode collab0.bech32_checksum ['b', 'c']
          (0 :: toBase32 (List.replicate 21 2)))
      = .error (.InvalidSegwitV0ProgramLength 21)) :=
  ⟨(C2_bech32_gate_order collab0 new_btc _ .bitcoin ['b', 'c'] 17
      (toBase32 (List.replicate 20 1)) (List.replicate 20 1)
      (by decide) (by decide) (by decide)).1 (by decide),
   (C2_bech32_gate_order collab0 new_btc _ .bitcoin ['b', 'c'] 3
      (toBase32 [5]) [5] (by decide) (by decide) (by decide)).2.1
      (by decide) (by decide),
   (C2_bech32_gate_order collab0 new_btc _ .bitcoin ['b', 'c'] 0
      (toBase32 (List.replicate 21 2)) (List.replicate 21 2)
      (by decide) (by decide) (by decide)).2.2
      rfl (by decide) (by decide) (by decide) (by decide)⟩

/-- C3: for every public key and network, `p2wpkh` and `p2shwpkh` return
`UncompressedPubkey` exactly when the key's compressed flag is false, and
succeed when it is true. -/
theorem C3_uncompressed_rejection (C : Collab) (T : Address) (pk : PublicKey)
    (network : Network) :
    (p2wpkh C T pk network = .error .UncompressedPubkey ↔ pk.compressed = false) ∧
    (p2shwpkh C T pk network = .error .UncompressedPubkey ↔ pk.compressed = false) ∧
    (pk.compressed = true →
      (p2wpkh C T pk network).toOption.isSome = true ∧
      (p2shwpkh C T pk network).toOption.isSome = true) := by
  cases hc : pk.compressed <;>
    simp [p2wpkh, p2shwpkh, hc, Except.toOption]

theorem C3_witness :
    (p2wpkh collab0 new_btc ⟨false, []⟩ .bitcoin = .error .UncompressedPubkey ↔
      (PublicKey.mk false []).compressed = false) ∧
    ((PublicKey.mk true []).compressed = true →
      (p2wpkh collab0 new_btc ⟨true, []⟩ .bitcoin).toOption.isSome = true ∧
      (p2shwpkh collab0 new_btc ⟨true, []⟩ .bitcoin).toOption.isSome = true) :=
  ⟨(C3_uncompressed_rejection collab0 new_btc ⟨false, []⟩ .bitcoin).1,
   (C3_uncompressed_rejection collab0 new_btc ⟨true, []⟩ .bitcoin).2.2⟩

/-- C4: `address_type` classifies `PubkeyHash` as P2PKH, `ScriptHash` as
P2SH, version-0 witness programs of lengths 20 / 32 as P2WPKH / P2WSH, and
everything else (any other version or length) as none; `is_standard` holds
exactly when the classification is not none. -/
theorem C4_address_type_classification (a : Address) :
    (∀ h, a.payload = .pubkeyHash h → address_type a = some .P2pkh) ∧
    (∀ h, a.payload = .scriptHash h → address_type a = some .P2sh) ∧
    (∀ v p, a.payload = .witnessProgram v p →
      (v = 0 → p.length = 20 → address_type a = some .P2wpkh) ∧
      (v = 0 → p.length = 32 → address_type a = some .P2wsh) ∧
      (v ≠ 0 ∨ (p.length ≠ 20 ∧ p.length ≠ 32) → address_type a = none)) ∧
    (is_standard a = true ↔ address_type a ≠ none) := by
  refine ⟨fun h hp => ?_, fun h hp => ?_, fun v p hp => ?_, ?_⟩
  · simp [address_type, hp]
  · simp [address_type, hp]
  · refine ⟨fun h0 h20 => ?_, fun h0 h32 => ?_, fun hother => ?_⟩
    · simp [address_type, hp, h0, h20]
    · simp [address_type, hp, h0, h32]
    · rcases hother with h0 | ⟨h20, h32⟩
      · simp [address_type, hp, h0]
      · simp [address_type, hp, h20, h32]
  · unfold is_standard
    cases address_type a <;> simp

theorem C4_witness :
    (address_type { new_btc with payload := .witnessProgram 1 (List.replicate 32 0) }
       = none) ∧
    (address_type { new_btc with payload := .witnessProgram 0 (List.replicate 20 0) }
       = some .P2wpkh) ∧
    (address_type { new_btc with payload := .witnessProgram 0 (List.replicate 32 0) }
       = some .P2wsh) ∧
    (address_type { new_btc with payload := .pubkeyHash (List.replicate 20 0) }
       = some .P2pkh) :=
  ⟨((C4_address_type_classification _).2.2.1 1 (List.replicate 32 0) rfl).2.2
      (Or.inl (by decide)),
   ((C4_address_type_classification _).2.2.1 0 (List.replicate 20 0) rfl).1
      rfl (by decide),
   ((C4_address_type_classification _).2.2.1 0 (List.replicate 32 0) rfl).2.1
      rfl (by decide),
   (C4_address_type_classification _).1 (List.replicate 20 0) rfl⟩

/-- C5: in the Base58 path of `from_str`, after checksum verification the
decoded length must equal the profile's prefix length plus 20 (else an
invalid-length error), and the version prefix is compared in the fixed
order mainnet-pubkeyhash, mainnet-scripthash, testnet-pubkeyhash,
testnet-scripthash, the first match fixing network and payload variant; no
match yields an invalid-version error. -/
theorem C5_base58_version_dispatch (C : Collab) (T : Address) (s : List Char)
    (data : List Nat)
    (hnet : bech32_network_of T s = none)
    (hlen : s.length ≤ 50)
    (hdec : base58_from_check C.sha256d s = .ok data) :
    (data.length ≠ 20 + T.version_pubkeyhash_mainnet.length →
      from_str C T s = .error (.Base58 (.InvalidLength data.length))) ∧
    (data.length = 20 + T.version_pubkeyhash_mainnet.length →
      (data.take T.version_pubkeyhash_mainnet.length = T.version_pubkeyhash_mainnet →
        from_str C T s = .ok { T with
          network := .bitcoin,
          payload := .pubkeyHash (data.drop T.version_pubkeyhash_mainnet.length) }) ∧
      (data.take T.version_pubkeyhash_mainnet.length ≠ T.version_pubkeyhash_mainnet →
       data.take T.version_pubkeyhash_mainnet.length = T.version_scripthash_mainnet →
        from_str C T s = .ok { T with
          network := .bitcoin,
          payload := .scriptHash (data.drop T.version_pubkeyhash_mainnet.length) }) ∧
      (data.take T.version_pubkeyhash_mainnet.length ≠ T.version_pubkeyhash_mainnet →
       data.take T.version_pubkeyhash_mainnet.length ≠ T.version_scripthash_mainnet →
       data.take T.version_pubkeyhash_mainnet.length = T.version_pubkeyhash_testnet →
        from_str C T s = .ok { T with
          network := .testnet,
          payload := .pubkeyHash (data.drop T.version_pubkeyhash_mainnet.length) }) ∧
      (data.take T.version_pubkeyhash_mainnet.length ≠ T.version_pubkeyhash_mainnet →
       data.take T.version_pubkeyhash_mainnet.length ≠ T.version_scripthash_mainnet →
       data.take T.version_pubkeyhash_mainnet.length ≠ T.version_pubkeyhash_testnet →
       data.take T.version_pubkeyhash_mainnet.length = T.version_scripthash_testnet →
        from_str C T s = .ok { T with
          network := .testnet,
          payload := .scriptHash (data.drop T.version_pubkeyhash_mainnet.length) }) ∧
      (data.take T.version_pubkeyhash_mainnet.length ≠ T.version_pubkeyhash_mainnet →
       data.take T.version_pubkeyhash_mainnet.length ≠ T.version_scripthash_mainnet →
       data.take T.version_pubkeyhash_mainnet.length ≠ T.version_pubkeyhash_testnet →
       data.take T.version_pubkeyhash_mainnet.length ≠ T.version_scripthash_testnet →
        from_str C T s = .error (.Base58 (.InvalidVersion
          (data.take T.version_pubkeyhash_mainnet.length))))) := by
  unfold from_str from_str_base58path
  simp only [hnet, hdec, if_neg (by omega : ¬ 50 < s.length)]
  refine ⟨fun hne => ?_, fun heq => ?_⟩
  · rw [if_pos hne]
  · rw [if_neg (by omega)]
    refine ⟨fun h1 => ?_, fun h1 h2 => ?_, fun h1 h2 h3 => ?_,
      fun h1 h2 h3 h4 => ?_, fun h1 h2 h3 h4 => ?_⟩
    · rw [if_pos h1]
    · rw [if_neg h1, if_pos h2]
    · rw [if_neg h1, if_neg h2, if_pos h3]
    · rw [if_neg h1, if_neg h2, if_neg h3, if_pos h4]
    · rw [if_neg h1, if_neg h2, if_neg h3, if_neg h4]

theorem C5_witness :
    (from_str collab0 new_btc
        (base58_check_encode collab0.sha256d (111 :: List.replicate 20 0))
      = .ok { new_btc with
          network := .testnet,
          payload := .pubkeyHash (List.replicate 20 0) }) ∧
    (from_str collab0 new_btc
        (base58_check_encode collab0.sha256d (7 :: List.replicate 20 0))
      = .error (.Base58 (.InvalidVersion [7]))) :=
  ⟨by
    have h := (C5_base58_version_dispatch collab0 new_btc
      (base58_check_encode collab0.sha256d (111 :: List.replicate 20 0))
      (111 :: List.replicate 20 0) (by decide) (by decide) (by decide)).2
      (by decide)
    exact h.2.2.1 (by decide) (by decide) (by decide),
   by
    have h := (C5_base58_version_dispatch collab0 new_btc
      (base58_check_encode collab0.sha256d (7 :: List.replicate 20 0))
      (7 :: List.replicate 20 0) (by decide) (by decide) (by decide)).2
      (by decide)
    exact h.2.2.2.2 (by decide) (by decide) (by decide) (by decide)⟩

/-- C6: any input longer than 50 characters whose extracted prefix matches
neither configured bech32 prefix makes `from_str` return the Base58
invalid-length error computed from the input length, for every checksum
collaborator — i.e. without attempting the Base58 decode. -/
theorem C6_overlong_guard (C : Collab) (T : Address) (s : List Char)
    (hnet : bech32_network_of T s = none) (hlen : 50 < s.length) :
    from_str C T s = .error (.Base58 (.InvalidLength (s.length * 11 / 15))) := by
  unfold from_str from_str_base58path
  simp only [hnet, if_pos hlen]

theorem C6_witness :
    from_str collab0 new_btc (List.replicate 51 'z')
      = .error (.Base58 (.InvalidLength 37)) := by
  have h := C6_overlong_guard collab0 new_btc (List.replicate 51 'z')
    (by decide) (by decide)
  simpa using h

/-- C7: witness-program serialization selects the human-readable part by
network — the profile's mainnet prefix for Bitcoin, its testnet prefix for
Testnet and Signet, and the fixed literal `"bcrt"` for Regtest irrespective
of the profile — while hash payloads on Regtest and Signet serialize with
the profile's testnet version bytes. -/
theorem C7_display_network_selection (C : Collab) (T : Address) (ver : Nat)
    (prog h : List Nat) :
    (to_string C { T with payload := .witnessProgram ver prog, network := .bitcoin }
      = bech32_encode C.bech32_checksum T.prefix_bech32_mainnet (ver :: toBase32 prog)) ∧
    (to_string C { T with payload := .witnessProgram ver prog, network := .testnet }
      = bech32_encode C.bech32_checksum T.prefix_bech32_testnet (ver :: toBase32 prog)) ∧
    (to_string C { T with payload := .witnessProgram ver prog, network := .signet }
      = bech32_encode C.bech32_checksum T.prefix_bech32_testnet (ver :: toBase32 prog)) ∧
    (to_string C { T with payload := .witnessProgram ver prog, network := .regtest }
      = bech32_encode C.bech32_checksum ['b', 'c', 'r', 't'] (ver :: toBase32 prog)) ∧
    (to_string C { T with payload := .pubkeyHash h, network := .regtest }
      = base58_check_encode C.sha256d (T.version_pubkeyhash_testnet ++ h)) ∧
    (to_string C { T with payload := .pubkeyHash h, network := .signet }
      = base58_check_encode C.sha256d (T.version_pubkeyhash_testnet ++ h)) ∧
    (to_string C { T with payload := .scriptHash h, network := .regtest }
      = base58_check_encode C.sha256d (T.version_scripthash_testnet ++ h)) ∧
    (to_string C { T with payload := .scriptHash h, network := .signet }
      = base58_check_encode C.sha256d (T.version_scripthash_testnet ++ h)) :=
  ⟨rfl, rfl, rfl, rfl, rfl, rfl, rfl, rfl⟩

/-- C10: whenever `from_str` succeeds, the returned address's network is
Bitcoin or Testnet — parsing never produces Signet or Regtest. -/
theorem C10_parse_network_invariant (C : Collab) (T : Address) (s : List Char)
    (a : Address) (h : from_str C T s = .ok a) :
    a.network = .bitcoin ∨ a.network = .testnet := by
  unfold from_str at h
  cases hnet : bech32_network_of T s with
  | none =>
    rw [hnet] at h
    unfold from_str_base58path at h
    by_cases h50 : 50 < s.length
    · rw [if_pos h50] at h; cases h
    · rw [if_neg h50] at h
      cases hdec : base58_from_check C.sha256d s with
      | error e => simp only [hdec] at h; exact Except.noConfusion h
      | ok data =>
        simp only [hdec] at h
        split_ifs at h <;>
          first
            | exact Except.noConfusion h
            | (injection h with h2; subst h2; simp)
  | some nw =>
    have hnw := bech32_network_of_eq_some hnet
    rw [hnet] at h
    unfold from_str_bech32path at h
    cases hdec : bech32_decode C.bech32_checksum s with
    | error e => simp only [hdec] at h; exact Except.noConfusion h
    | ok pr =>
      obtain ⟨hrp, payload⟩ := pr
      simp only [hdec] at h
      cases payload with
      | nil => exact Except.noConfusion h
      | cons version p5 =>
        cases hp : fromBase32 p5 with
        | error e => simp only [hp] at h; exact Except.noConfusion h
        | ok program =>
          simp only [hp] at h
          split_ifs at h
          all_goals
            first
              | exact Except.noConfusion h
              | (injection h with h2; subst h2;
                 rcases hnw with h1 | h1 <;> simp [h1])

theorem C10_witness :
    ({ new_btc with
        network := Network.testnet,
        payload := Payload.pubkeyHash (List.replicate 20 0) } : Address).network
      = .bitcoin ∨
    ({ new_btc with
        network := Network.testnet,
        payload := Payload.pubkeyHash (List.replicate 20 0) } : Address).network
      = .testnet :=
  C10_parse_network_invariant collab0 new_btc
    (base58_check_encode collab0.sha256d (111 :: List.replicate 20 0)) _ (by decide)

/-- C8: `from_str` extracts the prefix as the part of the input before the
last `'1'` (the whole input when there is none), compares it
case-insensitively first against the profile's testnet bech32 prefix and
then against its mainnet prefix, and on a match returns the bech32 decode
path's result for the selected network without falling back; only on a
mismatch of both does it attempt Base58Check decoding. -/
theorem C8_prefix_dispatch (C : Collab) (T : Address) (s pre data : List Char) :
    ('1' ∉ s → find_bech32_hrp s = s) ∧
    ('1' ∉ data → find_bech32_hrp (pre ++ '1' :: data) = pre) ∧
    (eq_ignore_ascii_case T.prefix_bech32_testnet (find_bech32_hrp s) = true →
      from_str C T s = from_str_bech32path C T .testnet s) ∧
    (eq_ignore_ascii_case T.prefix_bech32_testnet (find_bech32_hrp s) = false →
     eq_ignore_ascii_case T.prefix_bech32_mainnet (find_bech32_hrp s) = true →
      from_str C T s = from_str_bech32path C T .bitcoin s) ∧
    (eq_ignore_ascii_case T.prefix_bech32_testnet (find_bech32_hrp s) = false →
     eq_ignore_ascii_case T.prefix_bech32_mainnet (find_bech32_hrp s) = false →
      from_str C T s = from_str_base58path C T s) := by
  refine ⟨find_bech32_hrp_no_sep, find_bech32_hrp_append pre,
    fun h1 => ?_, fun h1 h2 => ?_, fun h1 h2 => ?_⟩
  · unfold from_str bech32_network_of
    rw [if_pos h1]
  · unfold from_str bech32_network_of
    rw [if_neg (by simp [h1]), if_pos h2]
  · unfold from_str bech32_network_of
    rw [if_neg (by simp [h1]), if_neg (by simp [h2])]

theorem C8_witness :
    (find_bech32_hrp (['t', 'b'] ++ '1' :: ['q', 'q']) = ['t', 'b']) ∧
    (from_str collab0 new_btc ['t', 'b', '1', 'q', 'q']
      = from_str_bech32path collab0 new_btc .testnet ['t', 'b', '1', 'q', 'q']) ∧
    (from_str collab0 new_btc ['B', 'C', '1', 'q', 'q']
      = from_str_bech32path collab0 new_btc .bitcoin ['B', 'C', '1', 'q', 'q']) ∧
    (from_str collab0 new_btc ['z', 'z']
      = from_str_base58path collab0 new_btc ['z', 'z']) :=
  ⟨(C8_prefix_dispatch collab0 new_btc [] ['t', 'b'] ['q', 'q']).2.1 (by decide),
   (C8_prefix_dispatch collab0 new_btc ['t', 'b', '1', 'q', 'q'] [] []).2.2.1 (by decide),
   (C8_prefix_dispatch collab0 new_btc ['B', 'C', '1', 'q', 'q'] [] []).2.2.2.1
      (by decide) (by decide),
   (C8_prefix_dispatch collab0 new_btc ['z', 'z'] [] []).2.2.2.2
      (by decide) (by decide)⟩

/-- C9 counterexample: the claim says the non-segwit profiles' configured
bech32 prefix can never match an extracted prefix, so `from_str` never
takes the bech32 path on those profiles. But the Dash profile's prefix is
the literal `"xxx"`, and on the input `"xxx1…"` below the prefix matches
(selecting Testnet) and `from_str` takes — and completes — the bech32
decode path, returning a witness-program address, which the Base58 path
can never produce. -/
theorem C9_counterexample :
    bech32_network_of new_dash
        (bech32_encode collab0.bech32_checksum ['x', 'x', 'x']
          (0 :: toBase32 (List.replicate 20 7))) = some .testnet ∧
    from_str collab0 new_dash
        (bech32_encode collab0.bech32_checksum ['x', 'x', 'x']
          (0 :: toBase32 (List.replicate 20 7)))
      = .ok { new_dash with
          payload := .witnessProgram 0 (List.replicate 20 7),
          network := .testnet } :=
  ⟨by decide, by decide⟩

/-- C9 amended: in the Dash, Zcash and Dogecoin profiles both bech32
prefixes are the placeholder `"xxx"`, which is matchable: `from_str` on
those profiles takes the bech32 decode path exactly for inputs whose
extracted prefix equals `"xxx"` up to ASCII case (selecting Testnet, since
the testnet prefix is compared first), and attempts Base58 decoding for
all other inputs. -/
theorem C9_sentinel_dispatch (C : Collab) (T : Address) (s : List Char)
    (hT : T = new_dash ∨ T = new_zec ∨ T = new_doge) :
    (T.prefix_bech32_mainnet = ['x', 'x', 'x'] ∧
     T.prefix_bech32_testnet = ['x', 'x', 'x']) ∧
    (eq_ignore_ascii_case ['x', 'x', 'x'] (find_bech32_hrp s) = true →
      bech32_network_of T s = some .testnet ∧
      from_str C T s = from_str_bech32path C T .testnet s) ∧
    (eq_ignore_ascii_case ['x', 'x', 'x'] (find_bech32_hrp s) = false →
      bech32_network_of T s = none ∧
      from_str C T s = from_str_base58path C T s) := by
  rcases hT with h | h | h <;> subst h <;>
  · refine ⟨⟨rfl, rfl⟩, fun h1 => ⟨?_, ?_⟩, fun h1 => ⟨?_, ?_⟩⟩ <;>
      simp [from_str, bech32_network_of, new_dash, new_zec, new_doge, h1]

theorem C9_witness :
    (bech32_network_of new_dash ['x', 'x', 'x', '1', 'q'] = some .testnet) ∧
    (bech32_network_of new_zec ['z', 'z'] = none) :=
  ⟨((C9_sentinel_dispatch collab0 new_dash ['x', 'x', 'x', '1', 'q']
      (Or.inl rfl)).2.1 (by decide)).1,
   ((C9_sentinel_dispatch collab0 new_zec ['z', 'z']
      (Or.inr (Or.inl rfl))).2.2 (by decide)).1⟩

/-- C1 counterexample: the claim says every constructor-producible address
(any of the four networks) round-trips through `to_string`/`from_str`. It
fails at network Signet: a `p2pkh` address built for Signet serializes with
the testnet version byte and parses back with network Testnet, so
`parse(to_string(a)) ≠ a`. -/
theorem C1_counterexample :
    from_str collab0 new_btc
        (to_string collab0 (p2pkh collab0 new_btc ⟨true, []⟩ .signet))
      ≠ .ok (p2pkh collab0 new_btc ⟨true, []⟩ .signet) := by decide

/-- C1 amended: for every address the constructors produce with network
Bitcoin or Testnet (under the spec's collaborator contracts and for a
well-formed profile), parsing the canonical string form on the same
profile returns the original address — provided that, for a
witness-program payload on mainnet, the profile's testnet bech32 prefix
does not case-insensitively equal its mainnet prefix (ruling out the
shared `"xxx"` placeholder), and that, for a hash payload, the Base58
string's extracted bech32 prefix matches neither profile prefix (which can
fail only in the rare case a Base58 serialization spells a bech32 prefix
followed by `'1'`). Signet and Regtest addresses do not round-trip. -/
theorem C1_roundtrip_amended (C : Collab) (T a : Address)
    (hC : Collab.WF C) (hT : ProfileWF T)
    (hprod : IsProducible C T a)
    (hnet : a.network = .bitcoin ∨ a.network = .testnet)
    (hwit : ∀ v p, a.payload = .witnessProgram v p → a.network = .bitcoin →
      eq_ignore_ascii_case T.prefix_bech32_testnet T.prefix_bech32_mainnet = false)
    (hb58 : is_base58_payload a.payload = true →
      bech32_network_of T (to_string C a) = none) :
    from_str C T (to_string C a) = .ok a := by
  rcases hprod with ⟨pk, nw, ha⟩ | ⟨scr, nw, ha⟩ | ⟨pk, nw, ha⟩ | ⟨pk, nw, ha⟩ |
    ⟨scr, nw, ha⟩ | ⟨scr, nw, ha⟩
  · subst ha
    exact from_str_to_string_base58 C T (C.hash160 pk.ser) _ nw hC hT (Or.inl rfl)
      (hC.2.2.1 _).1 (hC.2.2.1 _).2 hnet (hb58 rfl)
  · subst ha
    exact from_str_to_string_base58 C T (C.hash160 scr) _ nw hC hT (Or.inr rfl)
      (hC.2.2.1 _).1 (hC.2.2.1 _).2 hnet (hb58 rfl)
  · by_cases hcmp : pk.compressed
    · simp only [p2wpkh, hcmp, Bool.not_true, Bool.false_eq_true, if_false] at ha
      injection ha with ha
      subst ha
      exact from_str_to_string_segwit C T (C.hash160 pk.ser) nw hC hT hnet
        (Or.inl (hC.2.2.1 _).1) (hC.2.2.1 _).2
        (hwit 0 (C.hash160 pk.ser) rfl)
    · simp only [p2wpkh, hcmp, Bool.not_false, if_true] at ha
      cases ha
  · by_cases hcmp : pk.compressed
    · simp only [p2shwpkh, hcmp, Bool.not_true, Bool.false_eq_true, if_false] at ha
      injection ha with ha
      subst ha
      exact from_str_to_string_base58 C T (C.hash160 (0 :: 20 :: C.hash160 pk.ser)) _
        nw hC hT (Or.inr rfl) (hC.2.2.1 _).1 (hC.2.2.1 _).2 hnet (hb58 rfl)
    · simp only [p2shwpkh, hcmp, Bool.not_false, if_true] at ha
      cases ha
  · subst ha
    exact from_str_to_string_segwit C T (C.sha256 scr) nw hC hT hnet
      (Or.inr (hC.2.2.2 _).1) (hC.2.2.2 _).2
      (hwit 0 (C.sha256 scr) rfl)
  · subst ha
    exact from_str_to_string_base58 C T (C.hash160 (0 :: 32 :: C.sha256 scr)) _
      nw hC hT (Or.inr rfl) (hC.2.2.1 _).1 (hC.2.2.1 _).2 hnet (hb58 rfl)

theorem C1_witness :
    from_str collab0 new_btc
        (to_string collab0 (p2pkh collab0 new_btc ⟨true, []⟩ .testnet))
      = .ok (p2pkh collab0 new_btc ⟨true, []⟩ .testnet) :=
  C1_roundtrip_amended collab0 new_btc _ collab0_wf (by unfold ProfileWF; decide)
    (Or.inl ⟨⟨true, []⟩, .testnet, rfl⟩) (Or.inr rfl)
    (fun v p hp => by simp [p2pkh] at hp)
    (fun _ => by decide)

end AddressCodec
